import Mathlib

/-!
Shallow embedding of the pybencher micro-benchmarking harness
(`src/src/pybencher.py`, the current implementation; `src/benchmark.py` is an
earlier revision of the same `Suite` class with identical iteration-control and
trimming logic).

Python floats are modelled as exact rationals (`ℚ`), Python ints as `ℤ`/`ℕ`,
Python exceptions as an explicit error type threaded through `Except`.
Elapsed durations measured by the timer are supplied as an oracle
`dur : ℕ → ℚ` giving the duration of each successive invocation.
-/

namespace Pybencher

/-- The Python exceptions that the modelled code can raise, plus
`degenerateSample`, the error class named by the specification's error
taxonomy (§7\x7bDegenerateSample\x7d); no such class exists anywhere in the
source, it is included only so that statements can distinguish it from the
exceptions the code actually raises. -/
inductive PyError where
  | indexError
  | zeroDivisionError
  | typeError
  | attributeError
  | degenerateSample
deriving DecidableEq

/-- Python `int(q)` on a float/rational: truncation toward zero. -/
def pyInt (q : ℚ) : ℤ :=
  if 0 ≤ q then ⌊q⌋ else -⌊-q⌋

/-- Round to the nearest integer, ties to the even integer: the rounding used
by Python's `round` builtin and by its float formatting. -/
def roundHalfEven (q : ℚ) : ℤ :=
  let f := ⌊q⌋
  let frac := q - f
  if frac < 1/2 then f
  else if 1/2 < frac then f + 1
  else if 2 ∣ f then f else f + 1

/-- Python `round(q, 2)`: round to the nearest multiple of 1/100, ties to
even. -/
def roundTo2 (q : ℚ) : ℚ :=
  (roundHalfEven (q * 100) : ℚ) / 100

/-- Python `sorted(times)` (ascending).  Both sorts produce the identical
list for a linear order, so insertion sort stands in for timsort. -/
def sortedTimes (times : List ℚ) : List ℚ :=
  times.insertionSort (· ≤ ·)

/-- The slice `s[int(executions*cut):int(executions*(1-cut))]` of the sorted
sample taken in `Suite._get_output_details` (pybencher.py line 194).
Python slicing clamps out-of-range bounds, which `drop`/`take` reproduce. -/
def retainedSlice (cut : ℚ) (times : List ℚ) (executions : ℕ) : List ℚ :=
  let lo := (pyInt ((executions : ℚ) * cut)).toNat
  let hi := (pyInt ((executions : ℚ) * (1 - cut))).toNat
  ((sortedTimes times).drop lo).take (hi - lo)

/-- The dictionary returned by `Suite._get_output_details`.  The source's
`std` entry is `std_sq ** 0.5`; the square root of a rational is in general
irrational, so the record stores the radicand `std_sq` (squaring is a
monotone injection on the non-negative rationals, so no information is
lost). -/
structure Details where
  avg : ℚ
  std_sq : ℚ
  median : ℚ
  minimum : ℚ
  maximum : ℚ
  itr_ps : ℚ
  iterations : ℕ
  counted_iterations : ℕ
deriving DecidableEq

/-- `Suite._get_output_details(times, executions)` (pybencher.py lines
190-209).  An empty sample raises `IndexError` at `s[0]`; an empty retained
slice raises `ZeroDivisionError` at `sum(s) / len(s)`; a retained slice
summing to zero raises `ZeroDivisionError` at `len(s) / sum(s)`. -/
def getOutputDetails (cut : ℚ) (times : List ℚ) (executions : ℕ) :
    Except PyError Details :=
  let s := sortedTimes times
  if s = [] then .error .indexError
  else
    let minimum := s.headD 0
    let maximum := s.getLastD 0
    let r := retainedSlice cut times executions
    if r = [] then .error .zeroDivisionError
    else
      let avg := r.sum / (r.length : ℚ)
      let std_sq := (r.map (fun t => (t - avg) ^ 2)).sum / (r.length : ℚ)
      let med := r.getD (r.length / 2) 0
      if r.sum = 0 then .error .zeroDivisionError
      else
        let itrps := (r.length : ℚ) / r.sum
        let itrps2 := if 10 < itrps then ((pyInt itrps : ℤ) : ℚ) else roundTo2 itrps
        .ok { avg := avg, std_sq := std_sq, median := med, minimum := minimum,
              maximum := maximum, itr_ps := itrps2, iterations := executions,
              counted_iterations := r.length }

/-- `actual_max_runs = int(self.max_itr / (1-(2*self.cut)))`
(pybencher.py line 172). -/
def plannedRuns (maxItr : ℤ) (cut : ℚ) : ℤ :=
  pyInt ((maxItr : ℚ) / (1 - 2 * cut))

/-- The body of the `for _ in range(actual_max_runs)` loop of
`Suite._run_test` (pybencher.py lines 173-179), with the remaining range
as fuel.  State: accumulated `times`, `total_time`, `executions`. -/
def runTestLoop (dur : ℕ → ℚ) (timeout : ℚ) (minItr : ℤ) :
    ℕ → List ℚ → ℚ → ℕ → List ℚ × ℕ
  | 0, times, _, execs => (times, execs)
  | fuel + 1, times, total, execs =>
    let t := dur execs
    let times2 := times ++ [t]
    let total2 := total + t
    let execs2 := execs + 1
    if timeout < total2 ∧ minItr ≤ (execs2 : ℤ) then (times2, execs2)
    else runTestLoop dur timeout minItr fuel times2 total2 execs2

/-- `Suite._run_test` (pybencher.py lines 168-180): the `i`-th timed
invocation of the work unit returns duration `dur i`. -/
def runTest (dur : ℕ → ℚ) (timeout : ℚ) (maxItr minItr : ℤ) (cut : ℚ) :
    List ℚ × ℕ :=
  runTestLoop dur timeout minItr (plannedRuns maxItr cut).toNat [] 0 0

/-- `dur 0 + dur 1 + ... + dur (k-1)`: the value of `total_time` after `k`
completed executions. -/
def prefixSum (dur : ℕ → ℚ) (k : ℕ) : ℚ :=
  ((List.range k).map dur).sum

/-! ### The duration formatter `Suite._pretty_time`

`f'\x7bt/ratio:#.3g\x7d'` formats a non-negative value with 3 significant
digits in the alternate form (trailing zeros retained); CPython rounds the
decimal digits to nearest, ties to even.  The `g` presentation switches to
scientific notation when the decimal exponent of the rounded value drops
below -4 (or reaches the precision 3, unreachable here since every call
site guarantees `t/ratio < 999.5`). -/

/-- The three decimal digit characters of a mantissa `m` with
`100 ≤ m ≤ 999`. -/
def mantissaDigits (m : ℕ) : Char × Char × Char :=
  (Nat.digitChar (m / 100), Nat.digitChar (m / 10 % 10), Nat.digitChar (m % 10))

/-- Round a positive rational to 3 significant decimal digits:
returns `(m, x)` with `100 ≤ m ≤ 999` and value `m * 10 ^ (x - 2)`,
where `x` is the decimal exponent after rounding. -/
def sigRound3 (q : ℚ) : ℤ × ℤ :=
  let d := Int.log 10 q
  let m := roundHalfEven (q / (10 : ℚ) ^ (d - 2))
  if m = 1000 then (100, d + 1) else (m, d)

/-- Fixed-point rendering of `m * 10 ^ (x - 2)` for `-4 ≤ x ≤ 2` with
precision `3 - 1 - x` in alternate form: a bare trailing decimal point is
produced when `x = 2`. -/
def renderFixed (m : ℕ) (x : ℤ) : String :=
  let c := mantissaDigits m
  if x = 2 then String.mk [c.1, c.2.1, c.2.2, '.']
  else if x = 1 then String.mk [c.1, c.2.1, '.', c.2.2]
  else if x = 0 then String.mk [c.1, '.', c.2.1, c.2.2]
  else String.mk (['0', '.'] ++ List.replicate (-x - 1).toNat '0' ++ [c.1, c.2.1, c.2.2])

/-- Scientific rendering `d.dde±XX` of `m * 10 ^ (x - 2)` with an at least
two-digit exponent. -/
def renderSci (m : ℕ) (x : ℤ) : String :=
  let c := mantissaDigits m
  let sgn : Char := if x < 0 then '-' else '+'
  let e := x.natAbs
  let es := if e < 10 then String.mk ['0'] ++ Nat.repr e else Nat.repr e
  String.mk [c.1, '.', c.2.1, c.2.2, 'e', sgn] ++ es

/-- `f'\x7bq:#.3g\x7d'` for a positive rational. -/
def format3gPos (q : ℚ) : String :=
  let p := sigRound3 q
  if p.2 < -4 ∨ 3 ≤ p.2 then renderSci p.1.toNat p.2 else renderFixed p.1.toNat p.2

/-- `f'\x7bq:#.3g\x7d'`: 3 significant digits, alternate form. -/
def format3g (q : ℚ) : String :=
  if q = 0 then String.mk ['0', '.', '0', '0']
  else if q < 0 then String.mk ['-'] ++ format3gPos (-q)
  else format3gPos q

/-- Python `.rstrip('.')`: remove every trailing `'.'` character. -/
def rstripDot (s : String) : String :=
  String.mk ((s.data.reverse.dropWhile (fun c => c = '.')).reverse)

/-- The ordered `self.units` dictionary (pybencher.py lines 63-69). -/
def unitsList : List (String × ℚ) :=
  [(("ps"), 1 / 10 ^ 12), (("ns"), 1 / 10 ^ 9), (("us"), 1 / 10 ^ 6),
   (("ms"), 1 / 10 ^ 3), (("s"), 1)]

/-- The `for unit, ratio in self.units.items()` loop of `Suite._pretty_time`
(pybencher.py lines 183-187).  When the loop completes without returning,
line 188 evaluates `dt.timedelta(...)`; `dt` is the `datetime` *class*
(`from datetime import datetime as dt`), which has no `timedelta` attribute,
so that line raises `AttributeError` before any `H:MM:SS` string can be
built. -/
def prettyTimeGo (t : ℚ) : List (String × ℚ) → Except PyError String
  | [] => .error .attributeError
  | (u, ratio) :: rest =>
    let factor : ℚ := if u = ("s") then 1199 / 20 else 1999 / 2
    if t < factor * ratio then .ok (rstripDot (format3g (t / ratio)) ++ u)
    else prettyTimeGo t rest

/-- `Suite._pretty_time(t)` (pybencher.py lines 182-188); `59.95 = 1199/20`
and `999.5 = 1999/2`. -/
def prettyTime (t : ℚ) : Except PyError String :=
  prettyTimeGo t unitsList

/-! ### The `Suite` registry and orchestration

Work-unit callables, their arguments and the hook callables are external
collaborators (spec §1); a registered work unit is represented by its display
name plus its bound hook names.  A candidate value passed to `add` is
represented by its name and whether `callable(...)` holds for it. -/

/-- A value handed to `Suite.add`: `invocable` is Python's `callable(v)`. -/
structure PyValue where
  invocable : Bool
  name : String
deriving DecidableEq

/-- A registered `_Function` (pybencher.py lines 24-54): display name and the
hook names bound by `beforeAfter` (both `None` until `run` applies them). -/
structure WorkUnit where
  name : String
  beforeHook : Option String
  afterHook : Option String
deriving DecidableEq

/-- The `Suite` state (pybencher.py lines 61-84).  `disable_stdout` only
redirects the benchmarked functions' own output (an external collaborator,
spec §1) and `verbose` only adds display lines; neither changes any measured
or computed value. -/
structure Suite where
  tests : List WorkUnit
  timeout : ℚ
  max_itr : ℤ
  min_itr : ℤ
  cut : ℚ
  disable_stdout : Bool
  beforeFunc : Option String
  afterFunc : Option String
deriving DecidableEq

/-- `Suite.add` (pybencher.py lines 101-115): raises
`TypeError('must be a function')` when the value is not callable — the
registry is untouched since the exception fires before the append —
otherwise appends one new `_Function`.  Returns the post-state and the
raised exception, if any. -/
def Suite.add (s : Suite) (v : PyValue) : Suite × Option PyError :=
  if v.invocable = false then (s, some .typeError)
  else ({ s with tests := s.tests ++ [{ name := v.name, beforeHook := none, afterHook := none }] }, none)

/-- `Suite.clear` (pybencher.py lines 129-133). -/
def Suite.clear (s : Suite) : Suite :=
  { s with tests := [] }

/-- `Suite._applyBeforeAfter` (pybencher.py lines 161-166), called from
`_setup` at the start of `run`. -/
def Suite.applyBeforeAfter (s : Suite) : Suite :=
  { s with tests := s.tests.map fun w =>
      { w with beforeHook := s.beforeFunc, afterHook := s.afterFunc } }

/-- Python `str` of a list of strings, as printed by
`f'Running tests \x7b[t.name for t in self.tests]\x7d'`. -/
def pyStrListRepr (names : List String) : String :=
  String.mk ['['] ++
    String.intercalate (", ") (names.map fun n =>
      String.mk [Char.ofNat 39] ++ n ++ String.mk [Char.ofNat 39]) ++
    String.mk [']']

/-- Python `str` of the displayed `itr_ps` value: an `int` when the
`itrps > 10` branch was taken, otherwise a float produced by
`round(_, 2)` (so a multiple of 1/100), printed with its shortest decimal
digits. -/
def pyNumRepr (q : ℚ) : String :=
  if q.den = 1 then q.num.repr
  else
    let ip := ⌊q⌋
    let f2 := ((q - ⌊q⌋) * 100).num
    ip.repr ++ String.mk ['.'] ++
      (if f2 % 10 = 0 then (f2 / 10).natAbs.repr else f2.natAbs.repr)

/-- The per-test body of the loop in `Suite.run` (pybencher.py lines
217-224): measure, summarise, and emit the one summary line
`f'\x7bfunc.name\x7d: \x7b..._pretty_time(avg)\x7d/itr | \x7bitr_ps\x7d itr/s'`.
`dur i j` is the duration of invocation `j` of the `i`-th work unit.  The
verbose detail block (lines 225-235) is pure textual rendering of the same
`details` values (spec §1 excludes it from the core); it emits further lines
but is reached only when `tests` is non-empty and `verbose` is set, which no
claim exercises. -/
def runAll (s : Suite) (dur : ℕ → ℕ → ℚ) : ℕ → List WorkUnit → Except PyError (List String)
  | _, [] => .ok []
  | i, w :: rest => do
    let tr := runTest (dur i) s.timeout s.max_itr s.min_itr s.cut
    let d ← getOutputDetails s.cut tr.1 tr.2
    let avgStr ← prettyTime d.avg
    let line := w.name ++ (": ") ++ avgStr ++ ("/itr | ") ++ pyNumRepr d.itr_ps ++ (" itr/s")
    let restLines ← runAll s dur (i + 1) rest
    .ok (line :: restLines)

/-- `Suite.run` (pybencher.py lines 211-224), returning the printed lines:
the unconditional header `print(f'Running tests \x7b...\x7d')` of line 215,
then one summary line per registered test. -/
def Suite.run (s : Suite) (dur : ℕ → ℕ → ℚ) : Except PyError (List String) := do
  let header := ("Running tests ") ++ pyStrListRepr (s.tests.map WorkUnit.name)
  let s2 := s.applyBeforeAfter
  let lines ← runAll s2 dur 0 s2.tests
  .ok (header :: lines)

/-! ### Helper lemmas: the iteration controller -/

lemma prefixSum_zero (dur : ℕ → ℚ) : prefixSum dur 0 = 0 := rfl

lemma prefixSum_succ (dur : ℕ → ℚ) (k : ℕ) :
    prefixSum dur (k + 1) = prefixSum dur k + dur k := by
  simp [prefixSum, List.range_succ]

/-- Invariant-based characterisation of the measurement loop: starting from
`e` completed executions with the matching accumulators, the loop returns
the durations of the first `n` invocations, runs at most `fuel` further
iterations and at least one when fuel remains, stops before exhausting its
fuel only when the break condition holds, and never passes an intermediate
point where the break condition held. -/
lemma runTestLoop_spec (dur : ℕ → ℚ) (timeout : ℚ) (minItr : ℤ) :
    ∀ (fuel e : ℕ) (ts : List ℚ) (n : ℕ),
      runTestLoop dur timeout minItr fuel ((List.range e).map dur) (prefixSum dur e) e = (ts, n) →
      ts = (List.range n).map dur ∧ e ≤ n ∧ n ≤ e + fuel ∧
      (0 < fuel → e < n) ∧
      (n < e + fuel → timeout < prefixSum dur n ∧ minItr ≤ (n : ℤ)) ∧
      (∀ j : ℕ, e < j → j < n → ¬(timeout < prefixSum dur j ∧ minItr ≤ (j : ℤ))) := by
  intro fuel
  induction fuel with
  | zero =>
    intro e ts n h
    simp only [runTestLoop, Prod.mk.injEq] at h
    obtain ⟨hts, hn⟩ := h
    subst hn
    refine ⟨hts.symm, le_refl _, by omega, by omega, by omega, ?_⟩
    intro j hj1 hj2
    omega
  | succ fuel ih =>
    intro e ts n h
    simp only [runTestLoop] at h
    have hmap : (List.range e).map dur ++ [dur e] = (List.range (e + 1)).map dur := by
      rw [List.range_succ, List.map_append]
      rfl
    by_cases hc : timeout < prefixSum dur e + dur e ∧ minItr ≤ ((e + 1 : ℕ) : ℤ)
    · rw [if_pos hc] at h
      obtain ⟨hts, hn⟩ := Prod.mk.injEq .. ▸ h
      subst hn
      rw [← prefixSum_succ] at hc
      refine ⟨by rw [← hts, hmap], by omega, by omega, by omega, fun _ => hc, ?_⟩
      intro j hj1 hj2
      omega
    · rw [if_neg hc] at h
      rw [hmap, ← prefixSum_succ] at h
      obtain ⟨hts, h1, h2, _, h3, h4⟩ := ih (e + 1) ts n h
      rw [← prefixSum_succ] at hc
      refine ⟨hts, by omega, by omega, by omega, fun hlt => h3 (by omega), ?_⟩
      intro j hj1 hj2
      rcases Nat.lt_or_ge (e + 1) j with hj | hj
      · exact h4 j hj hj2
      · have : j = e + 1 := by omega
        subst this
        exact hc

/-- Restatement of `runTestLoop_spec` directly about `runTest`. -/
lemma runTest_spec (dur : ℕ → ℚ) (timeout : ℚ) (maxItr minItr : ℤ) (cut : ℚ) :
    (runTest dur timeout maxItr minItr cut).1 =
      (List.range (runTest dur timeout maxItr minItr cut).2).map dur ∧
    (runTest dur timeout maxItr minItr cut).2 ≤ (plannedRuns maxItr cut).toNat ∧
    (0 < (plannedRuns maxItr cut).toNat → 0 < (runTest dur timeout maxItr minItr cut).2) ∧
    ((runTest dur timeout maxItr minItr cut).2 < (plannedRuns maxItr cut).toNat →
      timeout < prefixSum dur (runTest dur timeout maxItr minItr cut).2 ∧
      minItr ≤ ((runTest dur timeout maxItr minItr cut).2 : ℤ)) ∧
    (∀ j : ℕ, 0 < j → j < (runTest dur timeout maxItr minItr cut).2 →
      ¬(timeout < prefixSum dur j ∧ minItr ≤ (j : ℤ))) := by
  have h := runTestLoop_spec dur timeout minItr (plannedRuns maxItr cut).toNat 0
    (runTest dur timeout maxItr minItr cut).1 (runTest dur timeout maxItr minItr cut).2 ?_
  · obtain ⟨hts, _, h2, h3, h4, h5⟩ := h
    exact ⟨hts, by omega, fun hf => h3 hf, fun hlt => h4 (by omega), fun j hj hj2 => h5 j hj hj2⟩
  · show runTestLoop dur timeout minItr (plannedRuns maxItr cut).toNat [] 0 0 = _
    exact Prod.mk.eta.symm

lemma plannedRuns_nonneg_arg (maxItr : ℤ) (cut : ℚ) (h2 : 0 ≤ maxItr) (h4 : cut < 1/2) :
    plannedRuns maxItr cut = ⌊(maxItr : ℚ) / (1 - 2 * cut)⌋ := by
  unfold plannedRuns pyInt
  rw [if_pos]
  exact div_nonneg (by exact_mod_cast h2) (by linarith)

lemma plannedRuns_ge (maxItr : ℤ) (cut : ℚ) (h2 : 0 ≤ maxItr) (h3 : 0 ≤ cut) (h4 : cut < 1/2) :
    maxItr ≤ plannedRuns maxItr cut := by
  rw [plannedRuns_nonneg_arg maxItr cut h2 h4, Int.le_floor]
  have hden : (0 : ℚ) < 1 - 2 * cut := by linarith
  rw [le_div_iff₀ hden]
  have hm : (0 : ℚ) ≤ (maxItr : ℚ) := by exact_mod_cast h2
  nlinarith

/-! ### Helper lemmas: the trimmed statistics engine -/

lemma sortedTimes_perm (times : List ℚ) : List.Perm (sortedTimes times) times :=
  List.perm_insertionSort _ _

lemma sortedTimes_sorted (times : List ℚ) : (sortedTimes times).Sorted (· ≤ ·) :=
  List.sorted_insertionSort _ _

lemma sortedTimes_length (times : List ℚ) :
    (sortedTimes times).length = times.length :=
  (sortedTimes_perm times).length_eq

lemma retainedSlice_sublist (cut : ℚ) (times : List ℚ) (e : ℕ) :
    (retainedSlice cut times e).Sublist (sortedTimes times) := by
  unfold retainedSlice
  exact (List.take_sublist _ _).trans (List.drop_sublist _ _)

lemma retainedSlice_sorted (cut : ℚ) (times : List ℚ) (e : ℕ) :
    (retainedSlice cut times e).Sorted (· ≤ ·) :=
  (sortedTimes_sorted times).sublist (retainedSlice_sublist cut times e)

lemma headD_mem_of_ne_nil (l : List ℚ) (hl : l ≠ []) : l.headD 0 ∈ l := by
  cases l with
  | nil => exact absurd rfl hl
  | cons a t => exact List.mem_cons_self a t

lemma getLastD_mem_of_ne_nil (l : List ℚ) (hl : l ≠ []) (d : ℚ) : l.getLastD d ∈ l := by
  induction l generalizing d with
  | nil => exact absurd rfl hl
  | cons a t ih =>
    cases t with
    | nil => exact List.mem_cons_self a []
    | cons b t2 =>
      rw [List.getLastD_cons]
      exact List.mem_cons_of_mem a (ih (by simp) a)

lemma sorted_headD_le (l : List ℚ) (hl : l.Sorted (· ≤ ·)) (x : ℚ) (hx : x ∈ l) :
    l.headD 0 ≤ x := by
  cases l with
  | nil => cases hx
  | cons a t =>
    rcases List.mem_cons.mp hx with h | h
    · subst h
      exact le_refl _
    · exact List.rel_of_sorted_cons hl x h

lemma sorted_le_getLastD (l : List ℚ) (hl : l.Sorted (· ≤ ·)) (x : ℚ) (hx : x ∈ l) :
    ∀ d : ℚ, x ≤ l.getLastD d := by
  induction l with
  | nil => cases hx
  | cons a t ih =>
    intro d
    cases t with
    | nil =>
      rcases List.mem_cons.mp hx with h | h
      · subst h
        exact le_refl _
      · cases h
    | cons b t2 =>
      rw [List.getLastD_cons]
      rcases List.mem_cons.mp hx with h | h
      · subst h
        exact le_trans (List.rel_of_sorted_cons hl _
            (getLastD_mem_of_ne_nil (b :: t2) (by simp) x))
          (le_refl _)
      · exact ih hl.of_cons h a

/-- Inversion of a successful `_get_output_details` call: every field of the
returned record in terms of the sorted sample and the retained slice. -/
lemma getOutputDetails_ok_inv (cut : ℚ) (times : List ℚ) (executions : ℕ)
    (d : Details) (h : getOutputDetails cut times executions = .ok d) :
    sortedTimes times ≠ [] ∧ retainedSlice cut times executions ≠ [] ∧
    (retainedSlice cut times executions).sum ≠ 0 ∧
    d.avg = (retainedSlice cut times executions).sum /
      ((retainedSlice cut times executions).length : ℚ) ∧
    d.std_sq = ((retainedSlice cut times executions).map
        (fun t => (t - (retainedSlice cut times executions).sum /
          ((retainedSlice cut times executions).length : ℚ)) ^ 2)).sum /
      ((retainedSlice cut times executions).length : ℚ) ∧
    d.median = (retainedSlice cut times executions).getD
      ((retainedSlice cut times executions).length / 2) 0 ∧
    d.minimum = (sortedTimes times).headD 0 ∧
    d.maximum = (sortedTimes times).getLastD 0 ∧
    d.itr_ps = (if 10 < ((retainedSlice cut times executions).length : ℚ) /
        (retainedSlice cut times executions).sum then
      ((pyInt (((retainedSlice cut times executions).length : ℚ) /
        (retainedSlice cut times executions).sum) : ℤ) : ℚ)
    else roundTo2 (((retainedSlice cut times executions).length : ℚ) /
        (retainedSlice cut times executions).sum)) ∧
    d.iterations = executions ∧
    d.counted_iterations = (retainedSlice cut times executions).length := by
  simp only [getOutputDetails] at h
  split at h
  · exact absurd h (fun hh => Except.noConfusion hh)
  · split at h
    · exact absurd h (fun hh => Except.noConfusion hh)
    · split at h
      · exact absurd h (fun hh => Except.noConfusion hh)
      · injection h with h2
        subst h2
        refine ⟨by assumption, by assumption, by assumption,
          rfl, rfl, rfl, rfl, rfl, rfl, rfl, rfl⟩

/-- The retained slice has exactly
`int(executions*(1-cut)) - int(executions*cut)` elements when `executions`
is the sample length and `0 ≤ cut < 1/2`. -/
lemma retainedSlice_length (cut : ℚ) (times : List ℚ) (e : ℕ)
    (he : e = times.length) (hc0 : 0 ≤ cut) (hc1 : cut < 1/2) :
    ((retainedSlice cut times e).length : ℤ) =
      ⌊(e : ℚ) * (1 - cut)⌋ - ⌊(e : ℚ) * cut⌋ := by
  have h1 : (0 : ℚ) ≤ (e : ℚ) * cut := mul_nonneg (by positivity) hc0
  have h2 : (0 : ℚ) ≤ (e : ℚ) * (1 - cut) := mul_nonneg (by positivity) (by linarith)
  have hlo : pyInt ((e : ℚ) * cut) = ⌊(e : ℚ) * cut⌋ := by
    unfold pyInt
    rw [if_pos h1]
  have hhi : pyInt ((e : ℚ) * (1 - cut)) = ⌊(e : ℚ) * (1 - cut)⌋ := by
    unfold pyInt
    rw [if_pos h2]
  have hlo0 : 0 ≤ ⌊(e : ℚ) * cut⌋ := Int.floor_nonneg.mpr h1
  have hlohi : ⌊(e : ℚ) * cut⌋ ≤ ⌊(e : ℚ) * (1 - cut)⌋ := by
    apply Int.floor_le_floor
    nlinarith [Nat.cast_nonneg (α := ℚ) e]
  have hhie : ⌊(e : ℚ) * (1 - cut)⌋ ≤ (e : ℤ) := by
    have : ⌊(e : ℚ) * (1 - cut)⌋ ≤ ⌊(e : ℚ)⌋ := by
      apply Int.floor_le_floor
      nlinarith [Nat.cast_nonneg (α := ℚ) e]
    simpa using this
  unfold retainedSlice
  rw [hlo, hhi, List.length_take, List.length_drop, sortedTimes_length, ← he]
  omega

/-- Expansion of a sum of squared deviations. -/
lemma sum_sq_dev (l : List ℚ) (a : ℚ) :
    (l.map (fun t => (t - a) ^ 2)).sum =
      (l.map (fun t => t ^ 2)).sum - 2 * a * l.sum + (l.length : ℚ) * a ^ 2 := by
  induction l with
  | nil => simp
  | cons x t ih =>
    simp only [List.map_cons, List.sum_cons, List.length_cons]
    push_cast
    rw [ih]
    ring

/-- `roundHalfEven` lands within half a unit of its argument. -/
lemma roundHalfEven_abs (q : ℚ) : |(roundHalfEven q : ℚ) - q| ≤ 1/2 := by
  have h1 := Int.floor_le q
  have h2 := Int.lt_floor_add_one q
  simp only [roundHalfEven]
  split
  · rw [abs_le]
    constructor <;> linarith
  · split
    · rw [abs_le]
      constructor <;> push_cast <;> linarith
    · split
      · rw [abs_le]
        constructor <;> linarith
      · rw [abs_le]
        constructor <;> push_cast <;> linarith

/-- `round(q, 2)` lands within half a hundredth of its argument. -/
lemma roundTo2_abs (q : ℚ) : |roundTo2 q - q| ≤ 1/200 := by
  have h := roundHalfEven_abs (q * 100)
  unfold roundTo2
  rw [show (roundHalfEven (q * 100) : ℚ) / 100 - q =
      ((roundHalfEven (q * 100) : ℚ) - q * 100) / 100 by ring,
    abs_div]
  rw [abs_of_pos (by norm_num : (0:ℚ) < 100)]
  linarith

lemma getD_eq_get (l : List ℚ) (n : ℕ) (h : n < l.length) :
    l.getD n 0 = l.get ⟨n, h⟩ := by
  rw [List.getD_eq_getElem?_getD, List.getElem?_eq_getElem h]
  rfl

/-- In a non-empty ascending even-length list, the element at index
`len/2` is the larger of the two middle elements. -/
lemma sorted_median_upper (l : List ℚ) (hs : l.Sorted (· ≤ ·)) (hne : l ≠ [])
    (hev : 2 ∣ l.length) :
    l.getD (l.length / 2) 0 =
      max (l.getD (l.length / 2 - 1) 0) (l.getD (l.length / 2) 0) := by
  have hlen : 0 < l.length := List.length_pos.mpr hne
  have h2 : 2 ≤ l.length := by omega
  have hia : l.length / 2 - 1 < l.length := by omega
  have hib : l.length / 2 < l.length := by omega
  rw [getD_eq_get l _ hia, getD_eq_get l _ hib]
  refine (max_eq_right ?_).symm
  exact hs.rel_get_of_le (by simp only [Fin.mk_le_mk]; omega)

/-! ### Claim theorems: iteration controller (C2, C5, C10) -/

/-- C2: under the Suite invariant (`timeout > 0`, `max_itr ≥ 1`,
`min_itr ≤ max_itr`, `0 ≤ cut < 1/2`), the iteration controller
`Suite._run_test` performs at least `min_itr` executions (even when the very
first invocation alone exceeds the timeout), never more than the planned run
count, stops before the planned count only when the accumulated total time
exceeds the timeout with the minimum-iteration floor met, and at no earlier
execution count did that stopping condition already hold — i.e. it stops
early exactly the first time `total_time > timeout ∧ executions ≥ min_itr`. -/
theorem c2_iteration_controller_stops_first_time (dur : ℕ → ℚ) (timeout : ℚ)
    (maxItr minItr : ℤ) (cut : ℚ)
    (htm : 0 < timeout) (hmin : minItr ≤ maxItr) (hmax : 1 ≤ maxItr)
    (hc0 : 0 ≤ cut) (hc1 : cut < 1/2) :
    minItr ≤ ((runTest dur timeout maxItr minItr cut).2 : ℤ) ∧
    ((runTest dur timeout maxItr minItr cut).2 : ℤ) ≤ plannedRuns maxItr cut ∧
    (((runTest dur timeout maxItr minItr cut).2 : ℤ) < plannedRuns maxItr cut →
      timeout < prefixSum dur (runTest dur timeout maxItr minItr cut).2 ∧
      minItr ≤ ((runTest dur timeout maxItr minItr cut).2 : ℤ)) ∧
    (∀ j : ℕ, j < (runTest dur timeout maxItr minItr cut).2 →
      ¬(timeout < prefixSum dur j ∧ minItr ≤ (j : ℤ))) := by
  obtain ⟨_, hub, _, hstop, hfirst⟩ := runTest_spec dur timeout maxItr minItr cut
  have hpl : maxItr ≤ plannedRuns maxItr cut := plannedRuns_ge maxItr cut (by omega) hc0 hc1
  have hplnn : 0 ≤ plannedRuns maxItr cut := by omega
  have htn : ((plannedRuns maxItr cut).toNat : ℤ) = plannedRuns maxItr cut :=
    Int.toNat_of_nonneg hplnn
  have hminexec : minItr ≤ ((runTest dur timeout maxItr minItr cut).2 : ℤ) := by
    rcases Nat.lt_or_ge (runTest dur timeout maxItr minItr cut).2
        (plannedRuns maxItr cut).toNat with hlt | hge
    · exact (hstop hlt).2
    · omega
  refine ⟨hminexec, by omega, fun hlt => hstop (by omega), ?_⟩
  intro j hj
  rcases Nat.eq_zero_or_pos j with hj0 | hjpos
  · subst hj0
    rw [prefixSum_zero]
    intro hcon
    linarith [hcon.1]
  · exact hfirst j hjpos hj

/-- Witness for C2: `min_itr = 3`, a work unit that takes 5 seconds per
call, `timeout = 1` — exactly the spec's example; at least 3 executions
occur (in fact exactly 3). -/
theorem c2_iteration_controller_stops_first_time_witness :
    (0 : ℚ) < 1 ∧ (3 : ℤ) ≤ 3 ∧ (1 : ℤ) ≤ 3 ∧ (0 : ℚ) ≤ 0 ∧ (0 : ℚ) < 1/2 ∧
    (3 : ℤ) ≤ ((runTest (fun _ => 5) 1 3 3 0).2 : ℤ) ∧
    (runTest (fun _ => 5) 1 3 3 0).2 = 3 :=
  ⟨by norm_num, le_refl _, by norm_num, le_refl _, by norm_num,
    (c2_iteration_controller_stops_first_time (fun _ => 5) 1 3 3 0
      (by norm_num) (le_refl _) (by norm_num) (le_refl _) (by norm_num)).1,
    by with_unfolding_all decide⟩

/-- C5: the planned run count `actual_max_runs = int(max_itr / (1-2*cut))`
is the floor of `max_itr / (1-2*cut)` — characterised order-theoretically:
it is the largest integer whose product with `1-2*cut` does not exceed
`max_itr` — it never falls below `max_itr`, equals `max_itr` exactly when
`cut = 0`, and equals `1111` for `max_itr = 1000`, `cut = 0.05`. -/
theorem c5_planned_runs_floor (maxItr : ℤ) (cut : ℚ)
    (hmax : 1 ≤ maxItr) (hc0 : 0 ≤ cut) (hc1 : cut < 1/2) :
    (plannedRuns maxItr cut : ℚ) * (1 - 2 * cut) ≤ (maxItr : ℚ) ∧
    (maxItr : ℚ) < ((plannedRuns maxItr cut : ℚ) + 1) * (1 - 2 * cut) ∧
    maxItr ≤ plannedRuns maxItr cut ∧
    (cut = 0 → plannedRuns maxItr cut = maxItr) ∧
    plannedRuns 1000 (1/20) = 1111 := by
  have hden : (0 : ℚ) < 1 - 2 * cut := by linarith
  have hfl := plannedRuns_nonneg_arg maxItr cut (by omega) hc1
  refine ⟨?_, ?_, plannedRuns_ge maxItr cut (by omega) hc0 hc1, ?_,
    by with_unfolding_all decide⟩
  · rw [hfl, ← le_div_iff₀ hden]
    exact Int.floor_le _
  · rw [hfl, ← div_lt_iff₀ hden]
    exact Int.lt_floor_add_one _
  · intro h0
    subst h0
    rw [plannedRuns_nonneg_arg maxItr 0 (by omega) (by norm_num)]
    norm_num

/-- Witness for C5 at the spec's own example `max_itr = 1000`,
`cut = 0.05`. -/
theorem c5_planned_runs_floor_witness :
    (1 : ℤ) ≤ 1000 ∧ (0 : ℚ) ≤ 1/20 ∧ (1/20 : ℚ) < 1/2 ∧
    plannedRuns 1000 (1/20) = 1111 :=
  ⟨by norm_num, by norm_num, by norm_num,
    (c5_planned_runs_floor 1000 (1/20) (by norm_num) (by norm_num)
      (by norm_num)).2.2.2.2⟩

/-- C10: for every configuration and duration sequence, the pair
`(raw_sample, executions)` returned by `Suite._run_test` satisfies
`executions = len(raw_sample)`, and at least one execution happens whenever
the planned run count is positive, so the slice indices that
`_get_output_details` computes from `executions` index the very sample it
receives. -/
theorem c10_sample_length_matches_executions (dur : ℕ → ℚ) (timeout : ℚ)
    (maxItr minItr : ℤ) (cut : ℚ) :
    (runTest dur timeout maxItr minItr cut).1.length =
      (runTest dur timeout maxItr minItr cut).2 ∧
    (1 ≤ plannedRuns maxItr cut → 1 ≤ (runTest dur timeout maxItr minItr cut).2) := by
  obtain ⟨hts, _, hpos, _, _⟩ := runTest_spec dur timeout maxItr minItr cut
  constructor
  · rw [hts, List.length_map, List.length_range]
  · intro h1
    exact hpos (by omega)

/-- Witness for C10 at the default-like configuration
`timeout = 10, max_itr = 4, min_itr = 2, cut = 0.05` with a 1-second work
unit. -/
theorem c10_sample_length_matches_executions_witness :
    (runTest (fun _ => 1) 10 4 2 (1/20)).1.length =
      (runTest (fun _ => 1) 10 4 2 (1/20)).2 ∧
    (1 ≤ plannedRuns 4 (1/20) ∧
      1 ≤ (runTest (fun _ => 1) 10 4 2 (1/20)).2) :=
  ⟨(c10_sample_length_matches_executions (fun _ => 1) 10 4 2 (1/20)).1,
    by with_unfolding_all decide,
    (c10_sample_length_matches_executions (fun _ => 1) 10 4 2 (1/20)).2
      (by with_unfolding_all decide)⟩

deriving instance DecidableEq for Except

/-! ### Claim theorems: trimmed statistics engine (C1, C3, C4, C7) -/

/-- C1: for a raw sample of length `n` and trim fraction `0 ≤ cut < 1/2`,
the retained slice is the ascending-sorted sample over indices
`[⌊n*cut⌋, ⌊n*(1-cut)⌋)` and has exactly `⌊n*(1-cut)⌋ - ⌊n*cut⌋` elements;
`minimum`/`maximum` are the least/greatest elements of the full raw sample,
while `avg`, `std` (via its square) and `median` are functions of the
retained slice alone. -/
theorem c1_retained_slice_min_max_full (cut : ℚ) (times : List ℚ)
    (executions : ℕ) (d : Details)
    (hc0 : 0 ≤ cut) (hc1 : cut < 1/2) (he : executions = times.length)
    (h : getOutputDetails cut times executions = .ok d) :
    ((retainedSlice cut times executions).length : ℤ) =
      ⌊(times.length : ℚ) * (1 - cut)⌋ - ⌊(times.length : ℚ) * cut⌋ ∧
    retainedSlice cut times executions =
      ((sortedTimes times).drop (⌊(times.length : ℚ) * cut⌋).toNat).take
        ((⌊(times.length : ℚ) * (1 - cut)⌋).toNat -
          (⌊(times.length : ℚ) * cut⌋).toNat) ∧
    (sortedTimes times).Sorted (· ≤ ·) ∧
    List.Perm (sortedTimes times) times ∧
    d.minimum ∈ times ∧ (∀ x ∈ times, d.minimum ≤ x) ∧
    d.maximum ∈ times ∧ (∀ x ∈ times, x ≤ d.maximum) ∧
    d.avg = (retainedSlice cut times executions).sum /
      ((retainedSlice cut times executions).length : ℚ) ∧
    d.std_sq = ((retainedSlice cut times executions).map
        (fun t => (t - d.avg) ^ 2)).sum /
      ((retainedSlice cut times executions).length : ℚ) ∧
    d.median = (retainedSlice cut times executions).getD
      ((retainedSlice cut times executions).length / 2) 0 := by
  obtain ⟨hsne, hrne, hsumne, havg, hstd, hmed, hmin, hmax, hitr, hit, hcnt⟩ :=
    getOutputDetails_ok_inv cut times executions d h
  have hperm := sortedTimes_perm times
  have hsort := sortedTimes_sorted times
  have h1 : (0 : ℚ) ≤ (executions : ℚ) * cut := mul_nonneg (by positivity) hc0
  have h2 : (0 : ℚ) ≤ (executions : ℚ) * (1 - cut) :=
    mul_nonneg (by positivity) (by linarith)
  refine ⟨by rw [he] at *; exact retainedSlice_length cut times _ rfl hc0 hc1,
    ?_, hsort, hperm, ?_, ?_, ?_, ?_, havg, ?_, hmed⟩
  · unfold retainedSlice
    rw [show pyInt ((executions : ℚ) * cut) = ⌊(executions : ℚ) * cut⌋ by
        unfold pyInt; rw [if_pos h1],
      show pyInt ((executions : ℚ) * (1 - cut)) = ⌊(executions : ℚ) * (1 - cut)⌋ by
        unfold pyInt; rw [if_pos h2],
      he]
  · rw [hmin]
    exact hperm.subset (headD_mem_of_ne_nil _ hsne)
  · intro x hx
    rw [hmin]
    exact sorted_headD_le _ hsort x (hperm.mem_iff.mpr hx)
  · rw [hmax]
    exact hperm.subset (getLastD_mem_of_ne_nil _ hsne 0)
  · intro x hx
    rw [hmax]
    exact sorted_le_getLastD _ hsort x (hperm.mem_iff.mpr hx) 0
  · rw [havg]
    exact hstd

/-- Witness for C1 at `times = [3,1,2,4]`, `cut = 1/4`: sorted sample
`[1,2,3,4]`, retained slice `[2,3]` of length `⌊3⌋ - ⌊1⌋ = 2`. -/
theorem c1_retained_slice_min_max_full_witness :
    (0 : ℚ) ≤ 1/4 ∧ (1/4 : ℚ) < 1/2 ∧ (4 : ℕ) = [(3 : ℚ), 1, 2, 4].length ∧
    getOutputDetails (1/4) [(3 : ℚ), 1, 2, 4] 4 =
      .ok ⟨5/2, 1/4, 3, 1, 4, 2/5, 4, 2⟩ ∧
    ((retainedSlice (1/4) [(3 : ℚ), 1, 2, 4] 4).length : ℤ) =
      ⌊(([(3 : ℚ), 1, 2, 4].length : ℚ)) * (1 - 1/4)⌋ -
        ⌊(([(3 : ℚ), 1, 2, 4].length : ℚ)) * (1/4)⌋ :=
  ⟨by norm_num, by norm_num, by with_unfolding_all decide,
    by with_unfolding_all decide,
    (c1_retained_slice_min_max_full (1/4) [(3 : ℚ), 1, 2, 4] 4
      ⟨5/2, 1/4, 3, 1, 4, 2/5, 4, 2⟩ (by norm_num) (by norm_num)
      (by with_unfolding_all decide) (by with_unfolding_all decide)).1⟩

/-- C3 (amended): for every successful call, `avg` is the arithmetic mean of
the retained slice, the squared `std` is the population variance of the
retained slice (equivalently, mean of the squares minus the squared mean —
divisor `len(retained)`, not `len(retained)-1`), and `median` is
`retained[len(retained)/2]`, which for an even-length retained slice is the
*upper* of the two middle values (the claim's "lower" is refuted by
`c3_counterexample_lower_median`). -/
theorem c3_stats_engine (cut : ℚ) (times : List ℚ) (executions : ℕ) (d : Details)
    (h : getOutputDetails cut times executions = .ok d) :
    d.avg = (retainedSlice cut times executions).sum /
      ((retainedSlice cut times executions).length : ℚ) ∧
    d.std_sq = ((retainedSlice cut times executions).map (fun t => t ^ 2)).sum /
      ((retainedSlice cut times executions).length : ℚ) - d.avg ^ 2 ∧
    d.median = (retainedSlice cut times executions).getD
      ((retainedSlice cut times executions).length / 2) 0 ∧
    (2 ∣ (retainedSlice cut times executions).length →
      d.median = max
        ((retainedSlice cut times executions).getD
          ((retainedSlice cut times executions).length / 2 - 1) 0)
        ((retainedSlice cut times executions).getD
          ((retainedSlice cut times executions).length / 2) 0)) := by
  obtain ⟨_, hrne, _, havg, hstd, hmed, _, _, _, _, _⟩ :=
    getOutputDetails_ok_inv cut times executions d h
  have hlenne : ((retainedSlice cut times executions).length : ℚ) ≠ 0 :=
    Nat.cast_ne_zero.mpr (List.length_pos.mpr hrne).ne'
  refine ⟨havg, ?_, hmed, ?_⟩
  · rw [havg, hstd, sum_sq_dev]
    field_simp
    ring
  · intro hev
    rw [hmed]
    exact sorted_median_upper _ (retainedSlice_sorted cut times executions) hrne hev

/-- C3 counterexample: on the sample `[1,2,3,4]` with `cut = 0` the retained
slice is `[1,2,3,4]` (even length, middle values 2 and 3); the code's median
is `s[int(4/2)] = s[2] = 3`, the *upper* middle value, not the lower one
(2). -/
theorem c3_counterexample_lower_median :
    getOutputDetails 0 [(1 : ℚ), 2, 3, 4] 4 =
      .ok ⟨5/2, 5/4, 3, 1, 4, 2/5, 4, 4⟩ ∧
    (retainedSlice 0 [(1 : ℚ), 2, 3, 4] 4).getD 1 0 = 2 ∧
    ((3 : ℚ)) ≠ 2 :=
  ⟨by with_unfolding_all decide, by with_unfolding_all decide, by norm_num⟩

/-- Witness for C3 on the sample `[1,2,3,4]` with `cut = 0`. -/
theorem c3_stats_engine_witness :
    getOutputDetails 0 [(1 : ℚ), 2, 3, 4] 4 =
      .ok ⟨5/2, 5/4, 3, 1, 4, 2/5, 4, 4⟩ ∧
    (5/2 : ℚ) = (retainedSlice 0 [(1 : ℚ), 2, 3, 4] 4).sum /
      ((retainedSlice 0 [(1 : ℚ), 2, 3, 4] 4).length : ℚ) :=
  ⟨by with_unfolding_all decide,
    (c3_stats_engine 0 [(1 : ℚ), 2, 3, 4] 4 ⟨5/2, 5/4, 3, 1, 4, 2/5, 4, 4⟩
      (by with_unfolding_all decide)).1⟩

/-- C4 (amended): for every successful call, the displayed `itr_ps` is the
raw throughput `len(retained)/sum(retained)` *truncated* toward zero to an
integer when that throughput exceeds 10 (so it lies within 1 below the raw
value and is an integer), and otherwise the raw throughput rounded to 2
decimal places (within 1/200 of it, 100·value an integer); at the claim's
boundary examples, 9.999 rounds to 10.0 and 10.5 becomes the integer 10. -/
theorem c4_throughput_display (cut : ℚ) (times : List ℚ) (executions : ℕ)
    (d : Details) (h : getOutputDetails cut times executions = .ok d) :
    (10 < ((retainedSlice cut times executions).length : ℚ) /
        (retainedSlice cut times executions).sum →
      d.itr_ps = ((⌊((retainedSlice cut times executions).length : ℚ) /
        (retainedSlice cut times executions).sum⌋ : ℤ) : ℚ) ∧
      ((retainedSlice cut times executions).length : ℚ) /
        (retainedSlice cut times executions).sum - 1 < d.itr_ps ∧
      d.itr_ps ≤ ((retainedSlice cut times executions).length : ℚ) /
        (retainedSlice cut times executions).sum ∧
      ∃ k : ℤ, d.itr_ps = (k : ℚ)) ∧
    (((retainedSlice cut times executions).length : ℚ) /
        (retainedSlice cut times executions).sum ≤ 10 →
      d.itr_ps = roundTo2 (((retainedSlice cut times executions).length : ℚ) /
        (retainedSlice cut times executions).sum) ∧
      |d.itr_ps - ((retainedSlice cut times executions).length : ℚ) /
        (retainedSlice cut times executions).sum| ≤ 1/200 ∧
      ∃ k : ℤ, d.itr_ps * 100 = (k : ℚ)) ∧
    roundTo2 (9999/1000) = 10 ∧
    pyInt (21/2) = 10 := by
  obtain ⟨_, _, _, _, _, _, _, _, hitr, _, _⟩ :=
    getOutputDetails_ok_inv cut times executions d h
  refine ⟨?_, ?_, by with_unfolding_all decide, by with_unfolding_all decide⟩
  · intro hgt
    have hnn : (0 : ℚ) ≤ ((retainedSlice cut times executions).length : ℚ) /
        (retainedSlice cut times executions).sum :=
      le_of_lt (lt_trans (by norm_num) hgt)
    rw [hitr, if_pos hgt]
    rw [show pyInt (((retainedSlice cut times executions).length : ℚ) /
        (retainedSlice cut times executions).sum) =
        ⌊((retainedSlice cut times executions).length : ℚ) /
          (retainedSlice cut times executions).sum⌋ by
      unfold pyInt; rw [if_pos hnn]]
    exact ⟨rfl, Int.sub_one_lt_floor _, Int.floor_le _, ⟨_, rfl⟩⟩
  · intro hle
    rw [hitr, if_neg (not_lt.mpr hle)]
    refine ⟨rfl, roundTo2_abs _, ⟨roundHalfEven
      ((((retainedSlice cut times executions).length : ℚ) /
        (retainedSlice cut times executions).sum) * 100), ?_⟩⟩
    unfold roundTo2
    field_simp

/-- C4 counterexample: three durations of `10/109` seconds give raw
throughput `10.9 > 10`; the code displays `int(10.9) = 10`, whereas
rounding 10.9 to the nearest integer gives 11. -/
theorem c4_counterexample_truncation :
    getOutputDetails 0 [(10/109 : ℚ), 10/109, 10/109] 3 =
      .ok ⟨10/109, 0, 10/109, 10/109, 10/109, 10, 3, 3⟩ ∧
    round ((109 : ℚ)/10) = 11 ∧
    ((10 : ℚ)) ≠ ((11 : ℤ) : ℚ) :=
  ⟨by with_unfolding_all decide, by norm_num [round_eq], by norm_num⟩

/-- Witness for C4 on the same three-sample input, exercising the
`itr_ps > 10` truncation branch. -/
theorem c4_throughput_display_witness :
    getOutputDetails 0 [(10/109 : ℚ), 10/109, 10/109] 3 =
      .ok ⟨10/109, 0, 10/109, 10/109, 10/109, 10, 3, 3⟩ ∧
    10 < ((retainedSlice 0 [(10/109 : ℚ), 10/109, 10/109] 3).length : ℚ) /
      (retainedSlice 0 [(10/109 : ℚ), 10/109, 10/109] 3).sum ∧
    Details.itr_ps ⟨10/109, 0, 10/109, 10/109, 10/109, 10, 3, 3⟩ =
      ((⌊((retainedSlice 0 [(10/109 : ℚ), 10/109, 10/109] 3).length : ℚ) /
        (retainedSlice 0 [(10/109 : ℚ), 10/109, 10/109] 3).sum⌋ : ℤ) : ℚ) :=
  ⟨by with_unfolding_all decide, by with_unfolding_all decide,
    ((c4_throughput_display 0 [(10/109 : ℚ), 10/109, 10/109] 3
        ⟨10/109, 0, 10/109, 10/109, 10/109, 10, 3, 3⟩
        (by with_unfolding_all decide)).1
      (by with_unfolding_all decide)).1⟩

/-- C7 (amended): when the retained slice is empty the engine fails fast
with an uncaught exception and never returns a Summary — but the exception
is the `IndexError`/`ZeroDivisionError` reached by executing `s[0]` resp.
the division `sum(s)/len(s)` itself; no guard exists and no
`DegenerateSample` error class exists or is raised. -/
theorem c7_empty_retained_fails_fast (cut : ℚ) (times : List ℚ)
    (executions : ℕ) (h : retainedSlice cut times executions = []) :
    (times = [] → getOutputDetails cut times executions = .error .indexError) ∧
    (times ≠ [] →
      getOutputDetails cut times executions = .error .zeroDivisionError) ∧
    (∀ d : Details, getOutputDetails cut times executions ≠ .ok d) ∧
    getOutputDetails cut times executions ≠ .error .degenerateSample := by
  by_cases ht : times = []
  · have hres : getOutputDetails cut times executions = .error .indexError := by
      simp only [getOutputDetails]
      rw [if_pos (by rw [ht]; rfl)]
    refine ⟨fun _ => hres, fun hne => absurd ht hne, ?_, ?_⟩
    · intro d hh
      rw [hres] at hh
      exact Except.noConfusion hh
    · intro hh
      rw [hres] at hh
      injection hh with h2
      exact PyError.noConfusion h2
  · have hsne : sortedTimes times ≠ [] := by
      intro hcon
      have hl := sortedTimes_length times
      rw [hcon] at hl
      exact ht (List.length_eq_zero.mp hl.symm)
    have hres : getOutputDetails cut times executions = .error .zeroDivisionError := by
      simp only [getOutputDetails]
      rw [if_neg hsne, if_pos h]
    refine ⟨fun he => absurd he ht, fun _ => hres, ?_, ?_⟩
    · intro d hh
      rw [hres] at hh
      exact Except.noConfusion hh
    · intro hh
      rw [hres] at hh
      injection hh with h2
      exact PyError.noConfusion h2

/-- C7 counterexample: sample `[1]` with `cut = 0.4` empties the retained
slice (`s[0:0]`); the code *does* perform the division by zero — the error
surfaced is `ZeroDivisionError`, and no `DegenerateSample` error is
raised in its place. -/
theorem c7_counterexample_no_degenerate_sample_error :
    getOutputDetails (2/5) [(1 : ℚ)] 1 = .error .zeroDivisionError ∧
    PyError.zeroDivisionError ≠ PyError.degenerateSample :=
  ⟨by with_unfolding_all decide, by decide⟩

/-- Witness for C7: the empty-retained-slice hypothesis holds at sample
`[1]`, `cut = 0.4`, `executions = 1`. -/
theorem c7_empty_retained_fails_fast_witness :
    retainedSlice (2/5) [(1 : ℚ)] 1 = [] ∧ ([(1 : ℚ)] ≠ []) ∧
    getOutputDetails (2/5) [(1 : ℚ)] 1 = .error .zeroDivisionError :=
  ⟨by with_unfolding_all decide, by simp,
    (c7_empty_retained_fails_fast (2/5) [(1 : ℚ)] 1
      (by with_unfolding_all decide)).2.1 (by simp)⟩

/-! ### Claim theorems: suite registry and orchestration (C8, C9) -/

/-- C8: `add` on a non-invocable value raises the invalid-work-unit error
(realised in the source as `TypeError('must be a function')`) and leaves the
registry unchanged — same list, hence same length and elements — while `add`
on an invocable value raises nothing and appends exactly one new work
unit. -/
theorem c8_add_invalid_work_unit (s : Suite) (v : PyValue) :
    (v.invocable = false →
      Suite.add s v = (s, some PyError.typeError) ∧
      (Suite.add s v).1.tests = s.tests ∧
      (Suite.add s v).1.tests.length = s.tests.length) ∧
    (v.invocable = true →
      (Suite.add s v).1.tests =
        s.tests ++ [{ name := v.name, beforeHook := none, afterHook := none }] ∧
      (Suite.add s v).2 = none ∧
      (Suite.add s v).1.tests.length = s.tests.length + 1) := by
  constructor
  · intro hv
    simp [Suite.add, hv]
  · intro hv
    simp [Suite.add, hv]

/-- Witness for C8: a non-invocable value is rejected with the registry
untouched, an invocable one is appended, on an initially empty suite. -/
theorem c8_add_invalid_work_unit_witness :
    ((⟨false, ("g")⟩ : PyValue).invocable = false) ∧
    Suite.add ⟨[], 10, 1000, 3, 1/20, false, none, none⟩ ⟨false, ("g")⟩ =
      (⟨[], 10, 1000, 3, 1/20, false, none, none⟩, some PyError.typeError) ∧
    ((⟨true, ("f")⟩ : PyValue).invocable = true) ∧
    (Suite.add ⟨[], 10, 1000, 3, 1/20, false, none, none⟩ ⟨true, ("f")⟩).1.tests.length = 0 + 1 :=
  ⟨rfl,
    ((c8_add_invalid_work_unit ⟨[], 10, 1000, 3, 1/20, false, none, none⟩
      ⟨false, ("g")⟩).1 rfl).1,
    rfl,
    ((c8_add_invalid_work_unit ⟨[], 10, 1000, 3, 1/20, false, none, none⟩
      ⟨true, ("f")⟩).2 rfl).2.2⟩

/-- C9 (amended): registering any work unit, then `clear()`, then `run()`
raises no error and prints no per-work-unit line — but it does produce
output: exactly the constant header line `Running tests []` printed
unconditionally at the top of `run`. -/
theorem c9_clear_then_run_prints_header_only (s : Suite) (v : PyValue)
    (dur : ℕ → ℕ → ℚ) :
    Suite.run (Suite.clear (Suite.add s v).1) dur =
      .ok [("Running tests []")] := by
  rfl

/-- C9 counterexample: after `add` then `clear`, `run` on the concrete
default-configured suite returns the one-line output
`['Running tests []']`, which is not the empty output the claim
describes. -/
theorem c9_counterexample_header_output :
    Suite.run (Suite.clear
        (Suite.add ⟨[], 10, 1000, 3, 1/20, false, none, none⟩ ⟨true, ("f")⟩).1)
      (fun _ _ => 0) = .ok [("Running tests []")] ∧
    [("Running tests []")] ≠ ([] : List String) :=
  ⟨rfl, by decide⟩

/-! ### Helper lemmas: the duration formatter -/

/-- `sigRound3` genuinely rounds to 3 significant decimal digits: the
mantissa is a 3-digit integer and the represented value
`m * 10 ^ (x - 2)` is within half a unit in the last significant place of
the argument. -/
lemma sigRound3_spec (q : ℚ) (hq : 0 < q) :
    100 ≤ (sigRound3 q).1 ∧ (sigRound3 q).1 ≤ 999 ∧
    |q - ((sigRound3 q).1 : ℚ) * (10 : ℚ) ^ ((sigRound3 q).2 - 2)| ≤
      (10 : ℚ) ^ ((sigRound3 q).2 - 2) / 2 := by
  have h10 : ((10 : ℚ)) ≠ 0 := by norm_num
  set d := Int.log 10 q with hd
  have h1 : (10 : ℚ) ^ d ≤ q := Int.zpow_log_le_self (by norm_num) hq
  have h2 : q < (10 : ℚ) ^ (d + 1) := Int.lt_zpow_succ_log_self (by norm_num) q
  set u : ℚ := (10 : ℚ) ^ (d - 2) with hu
  have hup : (0 : ℚ) < u := zpow_pos (by norm_num) _
  have hu2 : (10 : ℚ) ^ d = 100 * u := by
    rw [hu, show d = 2 + (d - 2) by ring, zpow_add₀ h10]
    norm_num
  have hu3 : (10 : ℚ) ^ (d + 1) = 1000 * u := by
    rw [hu, show d + 1 = 3 + (d - 2) by ring, zpow_add₀ h10]
    norm_num
  have hu1 : (10 : ℚ) ^ (d - 1) = 10 * u := by
    rw [hu, show d - 1 = 1 + (d - 2) by ring, zpow_add₀ h10]
    norm_num
  set y : ℚ := q / u with hy
  have hqy : q = y * u := by
    rw [hy]
    field_simp
  have hy100 : 100 ≤ y := by
    rw [hy, le_div_iff₀ hup]
    linarith [hu2 ▸ h1]
  have hy1000 : y < 1000 := by
    rw [hy, div_lt_iff₀ hup]
    linarith [hu3 ▸ h2]
  have habs := roundHalfEven_abs y
  rw [abs_le] at habs
  have hm100 : 100 ≤ roundHalfEven y := by
    have h99 : (99 : ℚ) < (roundHalfEven y : ℚ) := by linarith [habs.1]
    have h99i : (99 : ℤ) < roundHalfEven y := by exact_mod_cast h99
    omega
  have hm1000 : roundHalfEven y ≤ 1000 := by
    have ha : (roundHalfEven y : ℚ) < 1001 := by linarith [habs.2]
    have hb : roundHalfEven y < 1001 := by exact_mod_cast ha
    omega
  by_cases hm : roundHalfEven y = 1000
  · have hmq : (roundHalfEven y : ℚ) = 1000 := by
      rw [hm]
      norm_num
    have hy9995 : 1999/2 ≤ y := by linarith [habs.2]
    have hs : sigRound3 q = (100, d + 1) := by
      simp only [sigRound3]
      rw [← hd, ← hu, ← hy, hm]
      simp
    rw [hs]
    refine ⟨by norm_num, by norm_num, ?_⟩
    have he : ((100, d + 1) : ℤ × ℤ).2 - 2 = d - 1 := by
      dsimp only
      ring
    rw [he, hu1, hqy, abs_le]
    constructor <;> nlinarith [hup, hy9995, hy1000]
  · have hs : sigRound3 q = (roundHalfEven y, d) := by
      simp only [sigRound3]
      rw [← hd, ← hu, ← hy, if_neg hm]
    rw [hs]
    refine ⟨hm100, by omega, ?_⟩
    have he : ((roundHalfEven y, d) : ℤ × ℤ).2 - 2 = d - 2 := by
      dsimp only
    rw [he, ← hu, hqy,
      show y * u - (((roundHalfEven y, d) : ℤ × ℤ).1 : ℚ) * u =
        (y - (roundHalfEven y : ℚ)) * u by dsimp only; ring,
      abs_mul, abs_of_pos hup]
    have hyy : |y - (roundHalfEven y : ℚ)| ≤ 1/2 := by
      rw [abs_sub_comm]
      exact roundHalfEven_abs y
    calc |y - (roundHalfEven y : ℚ)| * u ≤ (1/2) * u :=
        mul_le_mul_of_nonneg_right hyy (le_of_lt hup)
    _ = u / 2 := by ring

/-! ### Claim theorems: duration formatter (C6) -/

set_option maxRecDepth 10000 in
/-- C6 (amended): `_pretty_time` selects the first unit in ascending order
ps, ns, us, ms, s whose cutoff (999.5x the unit ratio for sub-second units,
59.95 for seconds) exceeds `t`, and renders `t` divided by that ratio with
3 significant digits (the mantissa produced is a genuine 3-digit rounding,
last conjunct on `sigRound3`) in Python's `#` alternate form — trailing
zeros are KEPT (`format3g 1 = "1.00"`); only a bare trailing decimal point
is stripped (`rstripDot` on `"500."` gives `"500"`) — with the unit suffix
appended.  For `t` at or above the seconds cutoff the formatter does not
return `H:MM:SS`: it raises `AttributeError`, because `dt` names the
`datetime` class, which has no `timedelta` attribute. -/
theorem c6_formatter_unit_selection (t : ℚ) :
    (t < 1999/2 * (1/10^12) →
      prettyTime t = .ok (rstripDot (format3g (t / (1/10^12))) ++ ("ps"))) ∧
    (1999/2 * (1/10^12) ≤ t → t < 1999/2 * (1/10^9) →
      prettyTime t = .ok (rstripDot (format3g (t / (1/10^9))) ++ ("ns"))) ∧
    (1999/2 * (1/10^9) ≤ t → t < 1999/2 * (1/10^6) →
      prettyTime t = .ok (rstripDot (format3g (t / (1/10^6))) ++ ("us"))) ∧
    (1999/2 * (1/10^6) ≤ t → t < 1999/2 * (1/10^3) →
      prettyTime t = .ok (rstripDot (format3g (t / (1/10^3))) ++ ("ms"))) ∧
    (1999/2 * (1/10^3) ≤ t → t < 1199/20 * 1 →
      prettyTime t = .ok (rstripDot (format3g (t / 1)) ++ ("s"))) ∧
    (1199/20 * 1 ≤ t → prettyTime t = .error .attributeError) ∧
    (∀ q : ℚ, 0 < q →
      100 ≤ (sigRound3 q).1 ∧ (sigRound3 q).1 ≤ 999 ∧
      |q - ((sigRound3 q).1 : ℚ) * (10 : ℚ) ^ ((sigRound3 q).2 - 2)| ≤
        (10 : ℚ) ^ ((sigRound3 q).2 - 2) / 2) ∧
    format3g 1 = ("1.00") ∧
    rstripDot (format3g 500) = ("500") := by
  have hps : ¬(("ps" : String) = ("s")) := by decide
  have hns : ¬(("ns" : String) = ("s")) := by decide
  have hus : ¬(("us" : String) = ("s")) := by decide
  have hms : ¬(("ms" : String) = ("s")) := by decide
  refine ⟨?_, ?_, ?_, ?_, ?_, ?_, fun q hq => sigRound3_spec q hq,
    by with_unfolding_all decide, by with_unfolding_all decide⟩
  · intro h1
    simp only [prettyTime, prettyTimeGo, unitsList]
    rw [if_neg hps, if_pos h1]
  · intro h1 h2
    simp only [prettyTime, prettyTimeGo, unitsList]
    rw [if_neg hps, if_neg hns, if_neg (not_lt.mpr h1), if_pos h2]
  · intro h1 h2
    simp only [prettyTime, prettyTimeGo, unitsList]
    rw [if_neg hps, if_neg hns, if_neg hus,
      if_neg (not_lt.mpr (le_trans (by norm_num) h1)),
      if_neg (not_lt.mpr h1), if_pos h2]
  · intro h1 h2
    simp only [prettyTime, prettyTimeGo, unitsList]
    rw [if_neg hps, if_neg hns, if_neg hus, if_neg hms,
      if_neg (not_lt.mpr (le_trans (by norm_num) h1)),
      if_neg (not_lt.mpr (le_trans (by norm_num) h1)),
      if_neg (not_lt.mpr h1), if_pos h2]
  · intro h1 h2
    simp only [prettyTime, prettyTimeGo, unitsList]
    rw [if_neg hps, if_neg hns, if_neg hus, if_neg hms,
      if_neg (not_lt.mpr (le_trans (by norm_num) h1)),
      if_neg (not_lt.mpr (le_trans (by norm_num) h1)),
      if_neg (not_lt.mpr (le_trans (by norm_num) h1)),
      if_neg (not_lt.mpr h1), if_true, if_pos h2]
  · intro h1
    simp only [prettyTime, prettyTimeGo, unitsList]
    rw [if_neg hps, if_neg hns, if_neg hus, if_neg hms,
      if_neg (not_lt.mpr (le_trans (by norm_num) h1)),
      if_neg (not_lt.mpr (le_trans (by norm_num) h1)),
      if_neg (not_lt.mpr (le_trans (by norm_num) h1)),
      if_neg (not_lt.mpr (le_trans (by norm_num) h1)),
      if_true, if_neg (not_lt.mpr h1)]

set_option maxRecDepth 10000 in
/-- C6 counterexample: one nanosecond is rendered `"1.00ns"` — the trailing
zeros after the decimal point are NOT stripped (`"1ns"` is what the claim's
rendering rule would produce), because the source strips only `'.'`
characters with `rstrip('.')`. -/
theorem c6_counterexample_trailing_zeros_kept :
    prettyTime (1/10^9) = .ok (("1.00ns")) ∧
    (("1.00ns") : String) ≠ ("1ns") :=
  ⟨by with_unfolding_all decide, by decide⟩

/-- Witness for C6 at `t` = one nanosecond, which falls in the `ns` unit
range. -/
theorem c6_formatter_unit_selection_witness :
    1999/2 * (1/10^12) ≤ (1/10^9 : ℚ) ∧ (1/10^9 : ℚ) < 1999/2 * (1/10^9) ∧
    prettyTime (1/10^9) =
      .ok (rstripDot (format3g ((1/10^9 : ℚ) / (1/10^9))) ++ ("ns")) :=
  ⟨by norm_num, by norm_num,
    (c6_formatter_unit_selection (1/10^9)).2.1 (by norm_num) (by norm_num)⟩

end Pybencher
